import Mathlib

/-!
# errctx: contextual errors over Go's error chains

A shallow embedding of `errctx.go` together with the parts of Go's standard
library it calls (`errors.New`, `errors.Is`, `errors.As`, `errors.Join`,
`fmt.Errorf` with one `%w` verb).

Universe of error values.  An `Err` is a Go `error` interface value whose
dynamic type is one of: none (`nil`), `*errors.errorString`, a user-defined
comparable value type without `Is`/`As`/`Unwrap` methods (such as `CustomError`
of the test file), `*fmt.wrapError`, `*errors.joinError`, or `ErrCtx`.
Pointer-typed values carry their address; Go's `==` on them compares addresses.
Metadata maps live in a heap and an `ErrCtx` holds a reference to one (or no
reference: the nil map of the zero value `ErrCtx{}`).

Format strings are those with exactly one verb, `%w`; a panic of Go (a method call
on a nil interface, a write to a nil map, `errors.As` on a nil target) is the result
`none`.
-/

set_option linter.unusedVariables false

namespace Errctx

/-! ## Data model -/

/-- Values of Go type `any` stored in a metadata bag. -/
inductive Any where
  | nil
  | str (s : String)
  | int (i : Int)
  | bool (b : Bool)
  deriving DecidableEq, Repr

/-- Go `error` interface values. `addr` is the address of a pointer-typed value,
`metadata` is the map reference held by an `ErrCtx` (`none` is the nil map). -/
inductive Err where
  | nil
  | leaf (addr : Nat) (msg : String)
  | custom (ty : Nat) (msg : String)
  | wrap (addr : Nat) (msg : String) (err : Err)
  | join (addr : Nat) (errs : List Err)
  | ctx (err : Err) (metadata : Option Nat)
  deriving Repr

/-- The struct `ErrCtx` of `errctx.go`. -/
structure ErrCtx where
  err : Err
  metadata : Option Nat
  deriving Repr

/-- An `ErrCtx` value converted to the `error` interface. -/
def ErrCtx.toErr (e : ErrCtx) : Err := .ctx e.err e.metadata

/-- A metadata map `map[string]any` as an association list with unique keys. -/
abbrev Bag := List (String × Any)

/-- Map read `m[key]`: the stored value, or the zero value `nil` when absent. -/
def Bag.get (m : Bag) (key : String) : Any :=
  match m.find? (fun p => p.1 == key) with
  | some p => p.2
  | none => .nil

/-- Map write `m[key] = value`. -/
def Bag.set (m : Bag) (key : String) (value : Any) : Bag :=
  (key, value) :: m.filter (fun p => !(p.1 == key))

/-- The allocation state: the next unused address and the contents of every map. -/
structure Heap where
  next : Nat
  maps : Nat → Bag

/-- The state before anything is allocated. -/
def Heap.init : Heap := ⟨0, fun _ => []⟩

/-- Allocation of a new empty map, `make(map[string]any)`. -/
def makeMap (h : Heap) : Nat × Heap :=
  (h.next, ⟨h.next + 1, Function.update h.maps h.next []⟩)

/-! ## The standard library: `errors` -/

/-- Go `errors.New`. -/
def errorsNew (h : Heap) (msg : String) : Err × Heap :=
  (.leaf h.next msg, { h with next := h.next + 1 })

/-- Go `reflectlite.TypeOf(target).Comparable()`: `ErrCtx` holds a map and is the
only dynamic type of the universe that is not comparable. -/
def Err.comparable : Err → Bool
  | .ctx _ _ => false
  | _ => true

/-- Go `err == target` on two interface values of comparable dynamic type. -/
def Err.same : Err → Err → Bool
  | .nil, .nil => true
  | .leaf a _, .leaf b _ => a == b
  | .custom t m, .custom u n => t == u && m == n
  | .wrap a _ _, .wrap b _ _ => a == b
  | .join a _, .join b _ => a == b
  | _, _ => false

mutual
/-- The loop `is` of Go `errors.Is`, for a non-nil target. -/
def errorsIsLoop (target : Err) (targetComparable : Bool) : Err → Bool
  | .nil => false
  | .leaf a m => targetComparable && (Err.leaf a m).same target
  | .custom t m => targetComparable && (Err.custom t m).same target
  | .wrap a m e =>
    (targetComparable && (Err.wrap a m e).same target) || errorsIsLoop target targetComparable e
  | .join a es =>
    (targetComparable && (Err.join a es).same target) || errorsIsList target targetComparable es
  | .ctx e md => targetComparable && (Err.ctx e md).same target
/-- The `for _, err := range x.Unwrap()` loop of `is` over a joined aggregate. -/
def errorsIsList (target : Err) (targetComparable : Bool) : List Err → Bool
  | [] => false
  | e :: es => errorsIsLoop target targetComparable e || errorsIsList target targetComparable es
end

/-- Go `errors.Is`. -/
def errorsIs (err target : Err) : Bool :=
  match err, target with
  | .nil, .nil => true
  | .nil, _ => false
  | _, .nil => false
  | _, _ => errorsIsLoop target target.comparable err

/-- The pointee types `T` of the targets `*T` handed to `errors.As`: `ErrCtx`,
a user-defined value type, or the interface `error`. -/
inductive TargetType where
  | errCtx
  | custom (ty : Nat)
  | error
  deriving DecidableEq, Repr

/-- A valid target of `errors.As`: a non-nil pointer `*T` and the value it points to. -/
structure Target where
  ty : TargetType
  val : Err
  deriving Repr

/-- Go `reflectlite.TypeOf(err).AssignableTo(targetType)`. -/
def assignable : Err → TargetType → Bool
  | .nil, _ => false
  | .ctx _ _, .errCtx => true
  | .custom t _, .custom u => t == u
  | _, .error => true
  | _, _ => false

mutual
/-- The loop `as` of Go `errors.As`: the value it stores through the target, if any. -/
def errorsAsLoop (ty : TargetType) : Err → Option Err
  | .nil => none
  | .leaf a m => if assignable (.leaf a m) ty then some (.leaf a m) else none
  | .custom t m => if assignable (.custom t m) ty then some (.custom t m) else none
  | .wrap a m e => if assignable (.wrap a m e) ty then some (.wrap a m e) else errorsAsLoop ty e
  | .join a es => if assignable (.join a es) ty then some (.join a es) else errorsAsList ty es
  | .ctx e md => if assignable (.ctx e md) ty then some (.ctx e md) else none
/-- The `for _, err := range x.Unwrap()` loop of `as` over a joined aggregate. -/
def errorsAsList (ty : TargetType) : List Err → Option Err
  | [] => none
  | e :: es =>
    match errorsAsLoop ty e with
    | some v => some v
    | none => errorsAsList ty es
end

/-- Go `errors.As`. The target is `none` for a nil (or otherwise invalid) target, on
which `errors.As` panics unless `err` is nil; the result is `none` for a panic, and
otherwise the returned boolean with the target after the call. -/
def errorsAs (err : Err) (target : Option Target) : Option (Bool × Option Target) :=
  match err with
  | .nil => some (false, target)
  | _ =>
    match target with
    | none => none
    | some t =>
      match errorsAsLoop t.ty err with
      | some v => some (true, some { t with val := v })
      | none => some (false, some t)

/-- Go `errors.Join`: nil arguments are dropped, and with none left the result is nil. -/
def errorsJoin (h : Heap) (errs : List Err) : Err × Heap :=
  match errs.filter (fun e => match e with | .nil => false | _ => true) with
  | [] => (.nil, h)
  | es => (.join h.next es, { h with next := h.next + 1 })

mutual
/-- The method `Error()` of each dynamic type; `none` is a run-time panic (a method
call on a nil interface value). -/
def Err.Error : Err → Option String
  | .nil => none
  | .leaf _ m => some m
  | .custom _ m => some m
  | .wrap _ m _ => some m
  | .join _ es => joinError es
  | .ctx e _ => Err.Error e
/-- The body of `(*joinError).Error`: the messages separated by newlines. -/
def joinError : List Err → Option String
  | [] => none
  | e :: es =>
    match es with
    | [] => Err.Error e
    | _ => (Err.Error e).bind (fun s => (joinError es).map (fun r => s ++ "\n" ++ r))
end

/-! ## The standard library: `fmt.Errorf` with a single `%w` -/

/-- A format string with exactly one verb, `%w`: the Go string `pre ++ "%w" ++ post`,
where `pre` and `post` are literal text. -/
structure Format where
  pre : String
  post : String
  deriving Repr

/-- What `%w` prints for the operand: its `Error()` string; `%!w(<nil>)` for a nil
operand; the recovered-panic text when `Error()` panics. -/
def fmtOperand : Err → String
  | .nil => "%!w(<nil>)"
  | e =>
    match e.Error with
    | some s => s
    | none => "%!v(PANIC=Error method: runtime error: invalid memory address or nil pointer dereference)"

/-- The message of `fmt.Errorf(msg, e)`. -/
def Format.render (msg : Format) (e : Err) : String :=
  msg.pre ++ fmtOperand e ++ msg.post

/-- Go `fmt.Errorf(msg, e)`: a new `*fmt.wrapError` with the rendered message, whose
`Unwrap` returns `e`. -/
def fmtErrorf (h : Heap) (msg : Format) (e : Err) : Err × Heap :=
  (.wrap h.next (msg.render e) e, { h with next := h.next + 1 })

/-! ## The library: `errctx.go` -/

/-- The idiom `var errCtx ErrCtx; if errors.As(e, &errCtx)`: the `ErrCtx` stored in
the local variable when the call returns true. -/
def asErrCtx (e : Err) : Option ErrCtx :=
  match errorsAs e (some ⟨.errCtx, .ctx .nil none⟩) with
  | some (true, some ⟨_, .ctx c md⟩) => some ⟨c, md⟩
  | _ => none

/-! The recursion of `Is` and `As` is on the cause of the contextual error found, a
proper part of the error walked; the next three facts are its termination argument. -/

mutual
/-- The value found by the chain walk is a part of the error walked. -/
theorem errorsAsLoop_sizeOf (ty : TargetType) :
    ∀ (e v : Err), errorsAsLoop ty e = some v → sizeOf v ≤ sizeOf e
  | .nil, v, h => by simp [errorsAsLoop] at h
  | .leaf a m, v, h => by
    simp only [errorsAsLoop] at h
    split at h
    · cases h; exact le_refl _
    · cases h
  | .custom t m, v, h => by
    simp only [errorsAsLoop] at h
    split at h
    · cases h; exact le_refl _
    · cases h
  | .wrap a m e, v, h => by
    simp only [errorsAsLoop] at h
    split at h
    · cases h; exact le_refl _
    · have ih := errorsAsLoop_sizeOf ty e v h
      simp only [Err.wrap.sizeOf_spec]
      omega
  | .join a es, v, h => by
    simp only [errorsAsLoop] at h
    split at h
    · cases h; exact le_refl _
    · have ih := errorsAsList_sizeOf ty es v h
      simp only [Err.join.sizeOf_spec]
      omega
  | .ctx e md, v, h => by
    simp only [errorsAsLoop] at h
    split at h
    · cases h; exact le_refl _
    · cases h
/-- The value found in a joined aggregate is a part of one of its elements. -/
theorem errorsAsList_sizeOf (ty : TargetType) :
    ∀ (es : List Err) (v : Err), errorsAsList ty es = some v → sizeOf v ≤ sizeOf es
  | [], v, h => by simp [errorsAsList] at h
  | e :: es, v, h => by
    simp only [errorsAsList] at h
    split at h
    · rename_i w hw
      cases h
      have ih := errorsAsLoop_sizeOf ty e v hw
      simp only [List.cons.sizeOf_spec]
      omega
    · have ih := errorsAsList_sizeOf ty es v h
      simp only [List.cons.sizeOf_spec]
      omega
end

/-- The local variable of the idiom holds the value the chain walk found. -/
theorem asErrCtx_eq_some (e : Err) (c : ErrCtx) (h : asErrCtx e = some c) :
    errorsAsLoop .errCtx e = some (.ctx c.err c.metadata) := by
  unfold asErrCtx errorsAs at h
  cases e with
  | nil => simp at h
  | _ =>
    all_goals
      simp only at h
      split at h
      · rename_i x md hx
        split at hx
        · rename_i v hv
          simp only [Option.some.injEq, Prod.mk.injEq, true_and, Target.mk.injEq] at hx
          obtain ⟨-, hx2⟩ := hx
          cases h
          rw [hv, hx2]
        · simp at hx
      · cases h

/-- The cause of the contextual error found in a chain is strictly smaller than the
error the chain starts from. -/
theorem asErrCtx_sizeOf (e : Err) (c : ErrCtx) (h : asErrCtx e = some c) :
    sizeOf c.err < sizeOf e := by
  have hs := errorsAsLoop_sizeOf _ _ _ (asErrCtx_eq_some e c h)
  simp only [Err.ctx.sizeOf_spec] at hs
  omega

/-- Source: `func Is(err, target error) bool`. -/
def Is (err target : Err) : Bool :=
  match h : asErrCtx err with
  | some errCtx => Is errCtx.err target
  | none => errorsIs err target
termination_by sizeOf err
decreasing_by exact asErrCtx_sizeOf _ _ h

/-- Source: `func As(err error, target any) bool`. The result is `none` for a panic,
and otherwise the returned boolean with the target after the call. -/
def As (err : Err) (target : Option Target) : Option (Bool × Option Target) :=
  match h : asErrCtx err with
  | some errCtx =>
    match target with
    | some ⟨.errCtx, _⟩ => some (true, target)
    | _ => As errCtx.err target
  | none => errorsAs err target
termination_by sizeOf err
decreasing_by exact asErrCtx_sizeOf _ _ h

/-- Source: `func NewFromErr(err error) ErrCtx`. -/
def NewFromErr (h : Heap) (err : Err) : ErrCtx × Heap :=
  let (md, h1) := makeMap h
  ({ metadata := some md, err := err }, h1)

/-- Source: `func New(msg string) ErrCtx`. -/
def New (h : Heap) (msg : String) : ErrCtx × Heap :=
  let (md, h1) := makeMap h
  let (e, h2) := errorsNew h1 msg
  ({ metadata := some md, err := e }, h2)

/-- Source: `func Errorf(msg string, e error) ErrCtx`. -/
def Errorf (h : Heap) (msg : Format) (e : Err) : ErrCtx × Heap :=
  match asErrCtx e with
  | some err =>
    let (w, h1) := fmtErrorf h msg err.err
    ({ err with err := w }, h1)
  | none =>
    let (md, h1) := makeMap h
    let (w, h2) := fmtErrorf h1 msg e
    ({ metadata := some md, err := w }, h2)

/-- Source: `func ErrToCtx(err error) ErrCtx`. -/
def ErrToCtx (h : Heap) (err : Err) : ErrCtx × Heap :=
  match asErrCtx err with
  | some errCustom => (errCustom, h)
  | none =>
    let (md, h1) := makeMap h
    ({ metadata := some md, err := err }, h1)

/-- Source: `func (e ErrCtx) Value(key string) any`; reading a nil map yields nil. -/
def ErrCtx.Value (h : Heap) (e : ErrCtx) (key : String) : Any :=
  match e.metadata with
  | some r => (h.maps r).get key
  | none => .nil

/-- Source: `func (e ErrCtx) Values() map[string]any`: the map reference itself. -/
def ErrCtx.Values (e : ErrCtx) : Option Nat := e.metadata

/-- Source: `func (e ErrCtx) Error() string`; `none` is a panic. -/
def ErrCtx.Error (e : ErrCtx) : Option String := e.err.Error

/-- Source: `func (e ErrCtx) Join(err error) ErrCtx`. -/
def ErrCtx.Join (h : Heap) (e : ErrCtx) (err : Err) : ErrCtx × Heap :=
  let (j, h1) := errorsJoin h [err, e.err]
  ({ e with err := j }, h1)

/-- Source: `func (e ErrCtx) With(field string, value any) ErrCtx`; `none` is the
panic of an assignment to an entry of a nil map. -/
def ErrCtx.With (h : Heap) (e : ErrCtx) (field : String) (value : Any) :
    Option (ErrCtx × Heap) :=
  match e.metadata with
  | some r => some (e, { h with maps := Function.update h.maps r ((h.maps r).set field value) })
  | none => none

/-! ## Notions of the specification -/

mutual
/-- The chain of an error, followed by standard unwrapping (through wrappers and
through every element of a joined aggregate), contains a contextual error. -/
def chainHasCtx : Err → Bool
  | .ctx _ _ => true
  | .wrap _ _ e => chainHasCtx e
  | .join _ es => chainHasCtxList es
  | _ => false
/-- Some element of a joined aggregate has a contextual error in its chain. -/
def chainHasCtxList : List Err → Bool
  | [] => false
  | e :: es => chainHasCtx e || chainHasCtxList es
end

mutual
/-- The first contextual error of the chain in depth-first order, if there is one. -/
def firstCtx : Err → Option ErrCtx
  | .ctx e md => some ⟨e, md⟩
  | .wrap _ _ e => firstCtx e
  | .join _ es => firstCtxList es
  | _ => none
/-- The first contextual error among the chains of the elements of a joined aggregate. -/
def firstCtxList : List Err → Option ErrCtx
  | [] => none
  | e :: es =>
    match firstCtx e with
    | some c => some c
    | none => firstCtxList es
end

mutual
/-- The error at which the walk ends when some contextual error is on the way: from
the first contextual error of the chain go to its cause, and repeat from there until
an error with no contextual error in its chain is reached. -/
def innermostCore : Err → Option Err
  | .ctx e _ => some ((innermostCore e).getD e)
  | .wrap _ _ e => innermostCore e
  | .join _ es => innermostCoreList es
  | _ => none
/-- The same walk started in the elements of a joined aggregate, in order. -/
def innermostCoreList : List Err → Option Err
  | [] => none
  | e :: es =>
    match innermostCore e with
    | some x => some x
    | none => innermostCoreList es
end

/-- The error reached from `e` by repeatedly going to the cause of the first
contextual error of the chain; `e` itself when its chain has none. -/
def innermost (e : Err) : Err := (innermostCore e).getD e

/-- The nesting `Errorf(mn, ... Errorf(m2, Errorf(m1, e)) ...)` for `[m1, ..., mn]`. -/
def nestErrorf (h : Heap) : List Format → Err → Err × Heap
  | [], e => (e, h)
  | m :: ms, e => nestErrorf (Errorf h m e).2 ms (Errorf h m e).1.toErr

/-- The arguments `errors.Join` keeps: the non-nil ones. -/
def dropNil : Err → List Err
  | .nil => []
  | e => [e]

/-- A step-counted run of the source of `Is`: every call, the first included, uses up
one step; `none` means the steps ran out before the call returned. -/
def IsFuel : Nat → Err → Err → Option Bool
  | 0, _, _ => none
  | n + 1, err, target =>
    match asErrCtx err with
    | some errCtx => IsFuel n errCtx.err target
    | none => some (errorsIs err target)

/-- A step-counted run of the source of `As`; the outer `none` means the steps ran out,
the inner result is that of `As`. -/
def AsFuel : Nat → Err → Option Target → Option (Option (Bool × Option Target))
  | 0, _, _ => none
  | n + 1, err, target =>
    match asErrCtx err with
    | some errCtx =>
      match target with
      | some ⟨.errCtx, _⟩ => some (some (true, target))
      | _ => AsFuel n errCtx.err target
    | none => some (errorsAs err target)

/-! ## Example values

Each is the pair a call returns: the value and the allocation state after the call.
The calls are made one after the other, starting from the initial state. -/

/-- The call `errors.New("target error")` in the initial state (`targetErr` of the tests). -/
def exTarget : Err × Heap := errorsNew Heap.init "target error"

/-- The call `New("main")` after `exTarget`. -/
def exMain : ErrCtx × Heap := New exTarget.2 "main"

/-- The call `Errorf("wrapped: %w", targetErr)` after `exTarget`. -/
def exWrapped : ErrCtx × Heap := Errorf exTarget.2 ⟨"wrapped: ", ""⟩ exTarget.1

/-- The call `New("custom error")` in the initial state. -/
def exCustom : ErrCtx × Heap := New Heap.init "custom error"

/-- The call `errors.New("base error")` in the initial state. -/
def exBase : Err × Heap := errorsNew Heap.init "base error"

/-- The call `Errorf("custom error: %w", base)` of the test `TestWith`, after `exBase`. -/
def exField : ErrCtx × Heap := Errorf exBase.2 ⟨"custom error: ", ""⟩ exBase.1

/-- The call `errors.Join(main, targetErr)` after `exMain`: a joined aggregate of the
contextual error `New("main")` and the leaf `targetErr`. -/
def exJoined : Err × Heap := errorsJoin exMain.2 [exMain.1.toErr, exTarget.1]

/-- The zero value `ErrCtx{}` as an error. -/
def exZero : Err := ErrCtx.toErr ⟨.nil, none⟩

/-! ## Basic facts about the chain walk -/

mutual
theorem errorsAsLoop_errCtx : ∀ (e : Err),
    errorsAsLoop .errCtx e = (firstCtx e).map ErrCtx.toErr
  | .nil => by simp [errorsAsLoop, firstCtx]
  | .leaf a m => by simp [errorsAsLoop, firstCtx, assignable]
  | .custom t m => by simp [errorsAsLoop, firstCtx, assignable]
  | .wrap a m e => by
    simp [errorsAsLoop, firstCtx, assignable, errorsAsLoop_errCtx e]
  | .join a es => by
    simp [errorsAsLoop, firstCtx, assignable, errorsAsList_errCtx es]
  | .ctx e md => by simp [errorsAsLoop, firstCtx, assignable, ErrCtx.toErr]
theorem errorsAsList_errCtx : ∀ (es : List Err),
    errorsAsList .errCtx es = (firstCtxList es).map ErrCtx.toErr
  | [] => by simp [errorsAsList, firstCtxList]
  | e :: es => by
    simp only [errorsAsList, firstCtxList, errorsAsLoop_errCtx e, errorsAsList_errCtx es]
    cases firstCtx e <;> simp
end

/-- The idiom `errors.As(e, &errCtx)` finds the first contextual error of the chain. -/
theorem asErrCtx_eq_firstCtx (e : Err) : asErrCtx e = firstCtx e := by
  unfold asErrCtx errorsAs
  cases e with
  | nil => simp [firstCtx]
  | _ =>
    all_goals
      simp only [errorsAsLoop_errCtx]
      cases hf : firstCtx _ <;> simp [ErrCtx.toErr]

mutual
theorem firstCtx_isSome : ∀ (e : Err), (firstCtx e).isSome = chainHasCtx e
  | .nil => by simp [firstCtx, chainHasCtx]
  | .leaf a m => by simp [firstCtx, chainHasCtx]
  | .custom t m => by simp [firstCtx, chainHasCtx]
  | .wrap a m e => by simp [firstCtx, chainHasCtx, firstCtx_isSome e]
  | .join a es => by simp [firstCtx, chainHasCtx, firstCtxList_isSome es]
  | .ctx e md => by simp [firstCtx, chainHasCtx]
theorem firstCtxList_isSome : ∀ (es : List Err), (firstCtxList es).isSome = chainHasCtxList es
  | [] => by simp [firstCtxList, chainHasCtxList]
  | e :: es => by
    have h1 := firstCtx_isSome e
    have h2 := firstCtxList_isSome es
    simp only [firstCtxList, chainHasCtxList]
    cases hf : firstCtx e <;> simp_all
end

theorem firstCtx_eq_none_iff (e : Err) : firstCtx e = none ↔ chainHasCtx e = false := by
  rw [← firstCtx_isSome]
  cases firstCtx e <;> simp

theorem Is_of_some (err target : Err) (c : ErrCtx) (h : firstCtx err = some c) :
    Is err target = Is c.err target := by
  rw [Is]
  split
  · rename_i c2 h2
    rw [asErrCtx_eq_firstCtx, h] at h2
    cases h2
    rfl
  · rename_i h2
    rw [asErrCtx_eq_firstCtx, h] at h2
    cases h2

theorem Is_of_none (err target : Err) (h : firstCtx err = none) :
    Is err target = errorsIs err target := by
  rw [Is]
  split
  · rename_i c2 h2
    rw [asErrCtx_eq_firstCtx, h] at h2
    cases h2
  · rfl

theorem As_of_some (err : Err) (target : Option Target) (c : ErrCtx)
    (h : firstCtx err = some c) :
    As err target =
      match target with
      | some ⟨.errCtx, _⟩ => some (true, target)
      | _ => As c.err target := by
  rw [As]
  split
  · rename_i c2 h2
    rw [asErrCtx_eq_firstCtx, h] at h2
    cases h2
    rfl
  · rename_i h2
    rw [asErrCtx_eq_firstCtx, h] at h2
    cases h2

theorem As_of_none (err : Err) (target : Option Target) (h : firstCtx err = none) :
    As err target = errorsAs err target := by
  rw [As]
  split
  · rename_i c2 h2
    rw [asErrCtx_eq_firstCtx, h] at h2
    cases h2
  · rfl

mutual
theorem innermostCore_eq : ∀ (e : Err),
    innermostCore e = (firstCtx e).map (fun c => innermost c.err)
  | .nil => by simp [innermostCore, firstCtx]
  | .leaf a m => by simp [innermostCore, firstCtx]
  | .custom t m => by simp [innermostCore, firstCtx]
  | .wrap a m e => by simp [innermostCore, firstCtx, innermostCore_eq e]
  | .join a es => by simp [innermostCore, firstCtx, innermostCoreList_eq es]
  | .ctx e md => by simp [innermostCore, firstCtx, innermost]
theorem innermostCoreList_eq : ∀ (es : List Err),
    innermostCoreList es = (firstCtxList es).map (fun c => innermost c.err)
  | [] => by simp [innermostCoreList, firstCtxList]
  | e :: es => by
    simp only [innermostCoreList, firstCtxList, innermostCore_eq e, innermostCoreList_eq es]
    cases firstCtx e <;> simp
end

theorem innermost_of_some (e : Err) (c : ErrCtx) (h : firstCtx e = some c) :
    innermost e = innermost c.err := by
  rw [innermost, innermostCore_eq, h]
  simp

theorem innermost_of_none (e : Err) (h : firstCtx e = none) : innermost e = e := by
  rw [innermost, innermostCore_eq, h]
  simp

/-- The library's `Is` is the standard `errors.Is` on the error the walk ends at. -/
theorem Is_eq_innermost (e t : Err) : Is e t = errorsIs (innermost e) t := by
  cases hf : firstCtx e with
  | none => rw [Is_of_none _ _ hf, innermost_of_none _ hf]
  | some c =>
    rw [Is_of_some _ _ c hf, innermost_of_some _ _ hf]
    exact Is_eq_innermost c.err t
termination_by sizeOf e
decreasing_by exact asErrCtx_sizeOf e c (by rw [asErrCtx_eq_firstCtx]; exact hf)

/-- The two outcomes of `Errorf`, by the first contextual error of the chain. -/
theorem Errorf_eq (h : Heap) (m : Format) (e : Err) :
    Errorf h m e =
      match firstCtx e with
      | some c => (⟨.wrap h.next (m.render c.err) c.err, c.metadata⟩, ⟨h.next + 1, h.maps⟩)
      | none =>
        (⟨.wrap (h.next + 1) (m.render e) e, some h.next⟩,
          ⟨h.next + 2, Function.update h.maps h.next []⟩) := by
  unfold Errorf
  rw [asErrCtx_eq_firstCtx]
  cases firstCtx e <;> rfl

/-- On a contextual error, the library's `Is` goes on with its cause. -/
theorem Is_ctx (y : Err) (md : Option Nat) (t : Err) : Is (.ctx y md) t = Is y t :=
  Is_of_some (.ctx y md) t ⟨y, md⟩ rfl

mutual
/-- The value the standard walk stores is assignable to the target type. -/
theorem errorsAsLoop_assignable (ty : TargetType) :
    ∀ (e v : Err), errorsAsLoop ty e = some v → assignable v ty = true
  | .nil, v, h => by simp [errorsAsLoop] at h
  | .leaf a m, v, h => by
    simp only [errorsAsLoop] at h
    split at h
    · cases h; assumption
    · cases h
  | .custom t m, v, h => by
    simp only [errorsAsLoop] at h
    split at h
    · cases h; assumption
    · cases h
  | .wrap a m e, v, h => by
    simp only [errorsAsLoop] at h
    split at h
    · cases h; assumption
    · exact errorsAsLoop_assignable ty e v h
  | .join a es, v, h => by
    simp only [errorsAsLoop] at h
    split at h
    · cases h; assumption
    · exact errorsAsList_assignable ty es v h
  | .ctx e md, v, h => by
    simp only [errorsAsLoop] at h
    split at h
    · cases h; assumption
    · cases h
theorem errorsAsList_assignable (ty : TargetType) :
    ∀ (es : List Err) (v : Err), errorsAsList ty es = some v → assignable v ty = true
  | [], v, h => by simp [errorsAsList] at h
  | e :: es, v, h => by
    simp only [errorsAsList] at h
    split at h
    · rename_i w hw
      cases h
      exact errorsAsLoop_assignable ty e v hw
    · exact errorsAsList_assignable ty es v h
end

theorem chainHasCtx_false_comparable (e : Err) (hc : chainHasCtx e = false) :
    e.comparable = true := by
  cases e <;> simp_all [chainHasCtx, Err.comparable]

theorem errorsIs_eq_loop (e t : Err) (he : e ≠ .nil) (ht : t ≠ .nil) :
    errorsIs e t = errorsIsLoop t t.comparable e := by
  cases e <;> cases t <;> simp_all [errorsIs]

/-- The standard walk matches a non-nil comparable error against itself at once. -/
theorem errorsIsLoop_self (e : Err) (he : e ≠ .nil) (hc : chainHasCtx e = false) :
    errorsIsLoop e true e = true := by
  cases e <;> simp_all [errorsIsLoop, Err.same, chainHasCtx]

theorem errorsIsLoop_ne_nil (t e : Err) (b : Bool) (h : errorsIsLoop t b e = true) :
    e ≠ .nil := by
  intro hn
  subst hn
  simp [errorsIsLoop] at h

/-- A contextual error whose cause has no contextual error in its chain and reaches
`e` by the standard walk stays so under any further nesting of `Errorf`. -/
theorem nestErrorf_ctx_Is (e : Err) (he : e ≠ .nil) (hc : chainHasCtx e = false) :
    ∀ (ms : List Format) (h : Heap) (y : Err) (md : Option Nat),
      chainHasCtx y = false → errorsIsLoop e true y = true →
      Is (nestErrorf h ms (.ctx y md)).1 e = true
  | [], h, y, md, hy, hr => by
    have hf : firstCtx y = none := (firstCtx_eq_none_iff y).2 hy
    simp only [nestErrorf]
    rw [Is_ctx, Is_of_none _ _ hf,
      errorsIs_eq_loop _ _ (errorsIsLoop_ne_nil _ _ _ hr) he,
      chainHasCtx_false_comparable e hc]
    exact hr
  | m :: ms, h, y, md, hy, hr => by
    simp only [nestErrorf]
    rw [Errorf_eq]
    simp only [firstCtx, ErrCtx.toErr]
    apply nestErrorf_ctx_Is e he hc ms
    · simpa [chainHasCtx] using hy
    · simp [errorsIsLoop, hr]

theorem exTarget_ne_nil : exTarget.1 ≠ .nil := by
  simp [exTarget, errorsNew]

theorem exMain_err_ne_nil : exMain.1.err ≠ .nil := by
  simp [exMain, New, makeMap, errorsNew]

/-! ## Claims -/

/-- C1 (counterexample): with `e` the contextual error `New("custom error")` and the
format `"wrapped: %w"`, `Is(Errorf(m, e), e)` is false. -/
theorem C1_counterexample :
    Is (Errorf exCustom.2 ⟨"wrapped: ", ""⟩ exCustom.1.toErr).1.toErr exCustom.1.toErr
      = false := by
  rw [Is_eq_innermost]
  rfl

/-- C1 (amended): for every non-nil error `e` of comparable type that is not a
contextual error and has no contextual error in its chain, and every format string `m`
with a single `%w`, `Is(Errorf(m, e), e)` is true. (Every value of the universe other
than a contextual error has a comparable type.) -/
theorem C1_Is_Errorf_self (h : Heap) (m : Format) (e : Err)
    (he : e ≠ .nil) (hc : chainHasCtx e = false) :
    Is (Errorf h m e).1.toErr e = true := by
  have hf : firstCtx e = none := (firstCtx_eq_none_iff e).2 hc
  rw [Errorf_eq, hf]
  simp only [ErrCtx.toErr]
  have hw : firstCtx (.wrap (h.next + 1) (m.render e) e) = none := by simpa [firstCtx] using hf
  rw [Is_ctx, Is_of_none _ _ hw, errorsIs_eq_loop _ _ (by simp) he,
    chainHasCtx_false_comparable e hc]
  simp [errorsIsLoop, errorsIsLoop_self e he hc]

/-- Instance of C1 (amended) at a leaf error and the format `"wrapped: %w"`. -/
theorem C1_Is_Errorf_self_witness : Is exWrapped.1.toErr exTarget.1 = true :=
  C1_Is_Errorf_self exTarget.2 ⟨"wrapped: ", ""⟩ exTarget.1 exTarget_ne_nil (by rfl)

/-- C2: identity survives any nesting depth. For every non-nil error `e` that is not a
contextual error and has no contextual error in its chain (in particular every leaf
error), and every non-empty list of single-verb format strings `m1..mn`,
`Is(Errorf(mn, ... Errorf(m2, Errorf(m1, e)) ...), e)` is true. -/
theorem C2_Is_nested_Errorf (h : Heap) (ms : List Format) (e : Err)
    (hms : ms ≠ []) (he : e ≠ .nil) (hc : chainHasCtx e = false) :
    Is (nestErrorf h ms e).1 e = true := by
  cases ms with
  | nil => exact absurd rfl hms
  | cons m ms =>
    have hf : firstCtx e = none := (firstCtx_eq_none_iff e).2 hc
    simp only [nestErrorf]
    rw [Errorf_eq, hf]
    simp only [ErrCtx.toErr]
    apply nestErrorf_ctx_Is e he hc ms
    · simpa [chainHasCtx] using hc
    · simp [errorsIsLoop, errorsIsLoop_self e he hc]

/-- Instance of C2 at a leaf error nested twice. -/
theorem C2_Is_nested_Errorf_witness :
    Is (nestErrorf exTarget.2 [⟨"inner: ", ""⟩, ⟨"outer: ", ""⟩] exTarget.1).1
      exTarget.1 = true :=
  C2_Is_nested_Errorf exTarget.2 [⟨"inner: ", ""⟩, ⟨"outer: ", ""⟩] exTarget.1
    (by simp) exTarget_ne_nil (by rfl)

/-- C4: for every error `err`, `As(err, target)` with `target` a pointer to the
contextual-error type returns true exactly when the chain of `err` (followed by
standard unwrapping, joined aggregates included) contains a contextual error,
whatever that contextual error holds and whatever the target points to. -/
theorem C4_As_ErrCtx_target (err old : Err) :
    (As err (some ⟨.errCtx, old⟩)).map Prod.fst = some (chainHasCtx err) := by
  cases hf : firstCtx err with
  | some c =>
    have hc : chainHasCtx err = true := by rw [← firstCtx_isSome, hf]; rfl
    rw [As_of_some _ _ c hf, hc]
    rfl
  | none =>
    have hc : chainHasCtx err = false := (firstCtx_eq_none_iff err).1 hf
    rw [As_of_none _ _ hf, hc]
    unfold errorsAs
    cases err with
    | nil => rfl
    | _ => all_goals simp [errorsAsLoop_errCtx, hf]

/-! ### Joining -/

theorem errorsIsList_dropNil (t e : Err) (b : Bool) :
    errorsIsList t b (dropNil e) = errorsIsLoop t b e := by
  cases e <;> simp [dropNil, errorsIsList, errorsIsLoop]

/-- C7: `Errorf(m, err)` has exactly two outcomes. If the standard chain walk of `err`
finds a contextual error `c`, the first one in depth-first order, the result holds the
metadata reference of `c`, no map is created or changed, and its cause is the new
wrapper formatted around the cause of `c` and unwrapping to it. If there is none, the
result holds a reference to a new map (at the first unused address) that is empty, and
its cause is the new wrapper formatted around `err` and unwrapping to it. -/
theorem C7_Errorf_two_outcomes (h : Heap) (m : Format) (err : Err) :
    Errorf h m err =
      match firstCtx err with
      | some c =>
        ({ err := .wrap h.next (m.pre ++ fmtOperand c.err ++ m.post) c.err,
           metadata := c.metadata },
          { next := h.next + 1, maps := h.maps })
      | none =>
        ({ err := .wrap (h.next + 1) (m.pre ++ fmtOperand err ++ m.post) err,
           metadata := some h.next },
          { next := h.next + 2, maps := Function.update h.maps h.next [] }) := by
  unfold Errorf
  rw [asErrCtx_eq_firstCtx]
  cases hf : firstCtx err with
  | some c => rfl
  | none => rfl

/-! ### Standard matching and the library's matching -/

/-- C9 (failing input): for `err = errors.Join(New("main"), target)` with `target` a leaf
error, the standard `errors.Is(err, target)` is true and the library's
`Is(err, target)` is false. -/
theorem C9_superset_fails :
    errorsIs exJoined.1 exTarget.1 = true ∧ Is exJoined.1 exTarget.1 = false := by
  refine ⟨by rfl, ?_⟩
  rw [Is_eq_innermost]
  rfl

/-! ### Metadata -/

theorem Bag.get_set_same (m : Bag) (k : String) (v : Any) : (m.set k v).get k = v := by
  simp [Bag.get, Bag.set]

theorem Bag.find_filter_other (m : Bag) (k k2 : String) (hk : k2 ≠ k) :
    (m.filter (fun p => !(p.1 == k))).find? (fun p => p.1 == k2)
      = m.find? (fun p => p.1 == k2) := by
  induction m with
  | nil => rfl
  | cons p ps ih =>
    cases hpk : (p.1 == k) <;> cases hq : (p.1 == k2)
    · simp only [List.filter_cons, hpk, Bool.not_false, if_true, List.find?_cons, hq, ih]
    · simp only [List.filter_cons, hpk, Bool.not_false, if_true, List.find?_cons, hq]
    · rw [List.filter_cons]
      simp only [hpk, Bool.not_true, Bool.false_eq_true, if_false, List.find?_cons, hq]
      exact ih
    · exact absurd ((beq_iff_eq.1 hq).symm.trans (beq_iff_eq.1 hpk)) hk

theorem Bag.get_set_other (m : Bag) (k k2 : String) (v : Any) (hk : k2 ≠ k) :
    (m.set k v).get k2 = m.get k2 := by
  have hk2 : (k == k2) = false := by
    simp only [beq_eq_false_iff_ne, ne_eq]
    exact fun hh => hk hh.symm
  simp only [Bag.get, Bag.set, List.find?_cons, hk2, Bag.find_filter_other m k k2 hk]

/-- C10: for every contextual error `c` with an initialised metadata bag, every key `k`
and every value `v`: `c.With(k, v)` returns `c` without failing and then `Value(k)` is
`v`; `Value(k2)` for any other key `k2` is what it was before; and writing the same key
again keeps the last value. -/
theorem C10_With_Value (h : Heap) (c : ErrCtx) (k : String) (v : Any)
    (hm : c.metadata.isSome = true) :
    ∃ h1, c.With h k v = some (c, h1) ∧ c.Value h1 k = v ∧
      (∀ k2, k2 ≠ k → c.Value h1 k2 = c.Value h k2) ∧
      (∀ v2, ∃ h2, c.With h1 k v2 = some (c, h2) ∧ c.Value h2 k = v2) := by
  obtain ⟨e, md⟩ := c
  cases md with
  | none => simp at hm
  | some r =>
    refine ⟨_, rfl, ?_, ?_, ?_⟩
    · simp [ErrCtx.Value, Bag.get_set_same]
    · intro k2 hk
      simp [ErrCtx.Value, Bag.get_set_other _ _ _ _ hk]
    · intro v2
      refine ⟨_, rfl, ?_⟩
      simp [ErrCtx.Value, Bag.get_set_same]

/-- Instance of C10 at `Errorf("custom error: %w", base).With("field", "value")`. -/
theorem C10_With_Value_witness :
    ∃ h1, exField.1.With exField.2 "field" (.str "value") = some (exField.1, h1) ∧
      exField.1.Value h1 "field" = .str "value" ∧
      (∀ k2, k2 ≠ "field" → exField.1.Value h1 k2 = exField.1.Value exField.2 k2) ∧
      (∀ v2, ∃ h2, exField.1.With h1 "field" v2 = some (exField.1, h2) ∧
        exField.1.Value h2 "field" = v2) :=
  C10_With_Value exField.2 exField.1 "field" (.str "value") (by rfl)

/-! ### Conversion to a contextual error -/

theorem ErrToCtx_eq (h : Heap) (err : Err) :
    ErrToCtx h err =
      match firstCtx err with
      | some c => (c, h)
      | none => (⟨err, some h.next⟩, ⟨h.next + 1, Function.update h.maps h.next []⟩) := by
  unfold ErrToCtx
  rw [asErrCtx_eq_firstCtx]
  cases firstCtx err <;> rfl

theorem firstCtx_toErr (c : ErrCtx) : firstCtx c.toErr = some c := rfl

theorem With_eq (h : Heap) (c : ErrCtx) (k : String) (v : Any) (c1 : ErrCtx) (h1 : Heap)
    (hw : c.With h k v = some (c1, h1)) :
    ∃ r, c.metadata = some r ∧ c1 = c ∧
      h1 = { h with maps := Function.update h.maps r ((h.maps r).set k v) } := by
  obtain ⟨e, md⟩ := c
  cases md with
  | none => simp [ErrCtx.With] at hw
  | some r =>
    simp only [ErrCtx.With, Option.some.injEq, Prod.mk.injEq] at hw
    exact ⟨r, rfl, hw.1.symm, hw.2.symm⟩

/-- C11: `ErrToCtx(err)` returns the first contextual error of the chain of `err` as it
is, with its cause and its metadata reference, and changes no map; when the chain has
none it returns a contextual error with cause `err` and a new, empty map. Converting
the result again gives the same value, and after `c.With(k, v)` the conversion of the
result reads `v` at `k`. -/
theorem C11_ErrToCtx (h : Heap) (err : Err) :
    (ErrToCtx h err =
        match firstCtx err with
        | some c => (c, h)
        | none => (⟨err, some h.next⟩, ⟨h.next + 1, Function.update h.maps h.next []⟩)) ∧
      (firstCtx err = none → (ErrToCtx h err).2.maps h.next = []) ∧
      ErrToCtx (ErrToCtx h err).2 (ErrToCtx h err).1.toErr = ErrToCtx h err ∧
      (∀ (c c1 : ErrCtx) (k : String) (v : Any) (h1 : Heap),
        c.With h k v = some (c1, h1) →
          ErrToCtx h1 c1.toErr = (c, h1) ∧
            (ErrToCtx h1 c1.toErr).1.Value (ErrToCtx h1 c1.toErr).2 k = v) := by
  refine ⟨ErrToCtx_eq h err, ?_, ?_, ?_⟩
  · intro hf
    rw [ErrToCtx_eq, hf]
    simp
  · rw [ErrToCtx_eq _ (ErrToCtx h err).1.toErr, firstCtx_toErr]
  · intro c c1 k v h1 hw
    obtain ⟨r, hr, rfl, rfl⟩ := With_eq h c k v c1 h1 hw
    rw [ErrToCtx_eq, firstCtx_toErr]
    refine ⟨rfl, ?_⟩
    simp [ErrCtx.Value, hr, Bag.get_set_same]

/-- Instance of C11 at the chain of the test: `ErrToCtx` of
`Errorf("custom error: %w", base).With("field", "value")` reads `"value"` at `"field"`. -/
theorem C11_ErrToCtx_witness :
    (ErrToCtx
        { exField.2 with
          maps := Function.update
            exField.2.maps 1
            [("field", .str "value")] }
        exField.1.toErr).1.Value
      (ErrToCtx
        { exField.2 with
          maps := Function.update
            exField.2.maps 1
            [("field", .str "value")] }
        exField.1.toErr).2
      "field" = .str "value" :=
  ((C11_ErrToCtx exField.2
      .nil).2.2.2
    exField.1
    exField.1
    "field" (.str "value") _ rfl).2

/-! ### The metadata bag of constructed values -/

/-- The constructors give an initialised bag whenever the first contextual error of the
input, if any, has one; `Join` and `With` keep the reference. -/
theorem constructors_initialised (h : Heap) (m : Format) (msg : String) (err : Err)
    (hin : ∀ c, firstCtx err = some c → c.metadata.isSome = true) :
    (New h msg).1.metadata.isSome = true ∧ (NewFromErr h err).1.metadata.isSome = true ∧
      (Errorf h m err).1.metadata.isSome = true ∧
      (ErrToCtx h err).1.metadata.isSome = true := by
  refine ⟨rfl, rfl, ?_, ?_⟩
  · rw [Errorf_eq]
    cases hf : firstCtx err with
    | none => rfl
    | some c => exact hin c hf
  · rw [ErrToCtx_eq]
    cases hf : firstCtx err with
    | none => rfl
    | some c => exact hin c hf

/-- C12 (failing input): on the zero value `ErrCtx{}` as input error, `Errorf` and
`ErrToCtx` return a contextual error whose metadata bag is the nil map, and `With` on
that result panics. -/
theorem C12_zero_value_input :
    (Errorf Heap.init ⟨"wrapped: ", ""⟩ exZero).1.metadata = none ∧
      (ErrToCtx Heap.init exZero).1.metadata = none ∧
      (Errorf Heap.init ⟨"wrapped: ", ""⟩ exZero).1.With
          (Errorf Heap.init ⟨"wrapped: ", ""⟩ exZero).2 "field" (.str "value") = none := by
  refine ⟨rfl, rfl, rfl⟩

/-! ### Targets that are contextual errors -/

mutual
theorem errorsIsLoop_not_comparable (t : Err) : ∀ (e : Err), errorsIsLoop t false e = false
  | .nil => by simp [errorsIsLoop]
  | .leaf a m => by simp [errorsIsLoop]
  | .custom u m => by simp [errorsIsLoop]
  | .wrap a m e => by simp [errorsIsLoop, errorsIsLoop_not_comparable t e]
  | .join a es => by simp [errorsIsLoop, errorsIsList_not_comparable t es]
  | .ctx e md => by simp [errorsIsLoop]
theorem errorsIsList_not_comparable (t : Err) :
    ∀ (es : List Err), errorsIsList t false es = false
  | [] => by simp [errorsIsList]
  | e :: es => by
    simp [errorsIsList, errorsIsLoop_not_comparable t e, errorsIsList_not_comparable t es]
end

/-- The standard `errors.Is` never matches a target of the type `ErrCtx`. -/
theorem errorsIs_ctx_target (e y : Err) (md : Option Nat) :
    errorsIs e (.ctx y md) = false := by
  cases e <;> simp [errorsIs, Err.comparable, errorsIsLoop_not_comparable]

/-- C13: for every pair of messages `a` and `b`, equal or not, and whatever was
allocated before each call, `Is(New(a), New(b))` is false. -/
theorem C13_Is_New_New (h h2 : Heap) (a b : String) :
    Is (New h a).1.toErr (New h2 b).1.toErr = false := by
  rw [Is_eq_innermost]
  exact errorsIs_ctx_target _ _ _

/-! ### Sharing of the metadata bag -/

/-- Two contextual errors holding the same map reference see each other's writes. -/
theorem shared_bag (h : Heap) (c d : ErrCtx) (k k2 : String) (v v2 : Any)
    (hd : d.metadata = c.metadata) (hm : c.metadata.isSome = true) :
    ∃ h1 h2, d.With h k v = some (d, h1) ∧ c.Value h1 k = v ∧
      c.With h1 k2 v2 = some (c, h2) ∧ d.Value h2 k2 = v2 := by
  obtain ⟨ce, cm⟩ := c
  obtain ⟨de, dm⟩ := d
  cases cm with
  | none => simp at hm
  | some r =>
    simp only at hd
    subst hd
    refine ⟨_, _, rfl, ?_, rfl, ?_⟩
    · simp [ErrCtx.Value, Bag.get_set_same]
    · simp [ErrCtx.Value, Bag.get_set_same]

/-- C14: metadata is shared, not copied. For every contextual error `c` with an
initialised bag and `d` any of `Errorf(m, c)`, `ErrToCtx(c)`, `c.Join(x)`: `d.With(k, v)`
returns without failing and then `c.Value(k)` is `v`, and a later `c.With(k2, v2)` is
visible as `d.Value(k2)`. -/
theorem C14_metadata_shared (h : Heap) (m : Format) (x : Err) (c : ErrCtx)
    (k k2 : String) (v v2 : Any) (hm : c.metadata.isSome = true) :
    ∀ d ∈ [Errorf h m c.toErr, ErrToCtx h c.toErr, c.Join h x],
      ∃ h1 h2, d.1.With d.2 k v = some (d.1, h1) ∧ c.Value h1 k = v ∧
        c.With h1 k2 v2 = some (c, h2) ∧ d.1.Value h2 k2 = v2 := by
  intro d hd
  have hmd : d.1.metadata = c.metadata := by
    simp only [List.mem_cons, List.mem_singleton, List.not_mem_nil, or_false] at hd
    rcases hd with rfl | rfl | rfl
    · rw [Errorf_eq, firstCtx_toErr]
    · rw [ErrToCtx_eq, firstCtx_toErr]
    · rfl
  exact shared_bag d.2 c d.1 k k2 v v2 hmd hm

/-- Instance of C14 at `c = New("main")` and `d = Errorf("outer: %w", c)`. -/
theorem C14_metadata_shared_witness :
    ∃ h1 h2,
      (Errorf exMain.2 ⟨"outer: ", ""⟩ exMain.1.toErr).1.With
          (Errorf exMain.2 ⟨"outer: ", ""⟩ exMain.1.toErr).2
          "field" (.str "value")
        = some ((Errorf exMain.2 ⟨"outer: ", ""⟩
            exMain.1.toErr).1, h1) ∧
      exMain.1.Value h1 "field" = .str "value" ∧
      exMain.1.With h1 "other" (.int 2) = some (exMain.1, h2) ∧
      (Errorf exMain.2 ⟨"outer: ", ""⟩ exMain.1.toErr).1.Value
        h2 "other" = .int 2 :=
  C14_metadata_shared exMain.2 ⟨"outer: ", ""⟩ .nil exMain.1
    "field" "other" (.str "value") (.int 2) (by rfl)
    (Errorf exMain.2 ⟨"outer: ", ""⟩ exMain.1.toErr)
    (by simp)

/-! ### The cause and message after a join -/

theorem errorsJoin_of_ne_nil (h : Heap) (a b : Err) (ha : a ≠ .nil) (hb : b ≠ .nil) :
    errorsJoin h [a, b] = (.join h.next [a, b], { h with next := h.next + 1 }) := by
  cases a <;> cases b <;> first | rfl | exact absurd rfl ha | exact absurd rfl hb

/-- C15 (counterexample): with `c = New("main")` and `other = nil`, the cause of
`c.Join(other)` is the aggregate of the previous cause alone, not of
`[other, previous cause]`, and its message is `"main"`. -/
theorem C15_counterexample :
    (exMain.1.Join exMain.2 .nil).1.err
        = .join exMain.2.next [exMain.1.err] ∧
      (exMain.1.Join exMain.2 .nil).1.err
        ≠ .join exMain.2.next [.nil, exMain.1.err] ∧
      (exMain.1.Join exMain.2 .nil).1.Error
        = some "main" := by
  refine ⟨rfl, ?_, rfl⟩
  show Err.join exMain.2.next [exMain.1.err] ≠ .join exMain.2.next [.nil, exMain.1.err]
  simp

/-- C15 (amended): for every contextual error `c` with a non-nil cause and every non-nil
error `other`, `c.Join(other)` has as cause the new aggregate of exactly
`[other, previous cause]` in that order, holds the metadata reference of `c`, and
changes no map; when `Error()` returns on both, its message is the message of `other`,
a newline, then the message of the previous cause. -/
theorem C15_Join_cause (h : Heap) (c : ErrCtx) (other : Err)
    (ho : other ≠ .nil) (hc : c.err ≠ .nil) :
    c.Join h other = (⟨.join h.next [other, c.err], c.metadata⟩, ⟨h.next + 1, h.maps⟩) ∧
      (∀ s1 s2, other.Error = some s1 → c.err.Error = some s2 →
        (c.Join h other).1.Error = some (s1 ++ "\n" ++ s2)) := by
  have hj : c.Join h other
      = (⟨.join h.next [other, c.err], c.metadata⟩, ⟨h.next + 1, h.maps⟩) := by
    unfold ErrCtx.Join
    rw [errorsJoin_of_ne_nil h other c.err ho hc]
  refine ⟨hj, ?_⟩
  intro s1 s2 h1 h2
  rw [hj]
  simp [ErrCtx.Error, Err.Error, joinError, h1, h2]

/-- Instance of C15 (amended) at `New("main").Join(target)`. -/
theorem C15_Join_cause_witness :
    exMain.1.Join exMain.2 exTarget.1
        = (⟨.join exMain.2.next [exTarget.1, exMain.1.err], exMain.1.metadata⟩,
            ⟨exMain.2.next + 1, exMain.2.maps⟩) ∧
      (exMain.1.Join exMain.2
        exTarget.1).1.Error = some ("target error" ++ "\n" ++ "main") :=
  ⟨(C15_Join_cause exMain.2 exMain.1 exTarget.1 exTarget_ne_nil exMain_err_ne_nil).1,
    (C15_Join_cause exMain.2 exMain.1 exTarget.1 exTarget_ne_nil exMain_err_ne_nil).2
      "target error" "main" rfl rfl⟩

/-! ### The message of constructed values -/

/-- C16 (failing input): on a nil error, `NewFromErr` and `ErrToCtx` return a contextual
error whose `Error()` panics. -/
theorem C16_nil_cause_panics :
    (NewFromErr Heap.init .nil).1.Error = none ∧ (ErrToCtx Heap.init .nil).1.Error = none := by
  refine ⟨rfl, rfl⟩

/-! ### Absent errors -/

/-- C17: `Is(nil, target)` is true exactly when `target` is nil; it is the answer of the
standard `errors.Is`. -/
theorem C17_Is_nil (t : Err) :
    (Is .nil t = true ↔ t = .nil) ∧ Is .nil t = errorsIs .nil t := by
  rw [Is_of_none .nil t rfl]
  refine ⟨?_, rfl⟩
  cases t <;> simp [errorsIs]

/-! ### Termination -/

theorem sizeOf_Err_pos (e : Err) : 0 < sizeOf e := by
  cases e <;> simp

theorem IsFuel_eq (err t : Err) : ∀ n, sizeOf err ≤ n → IsFuel n err t = some (Is err t)
  | 0, hn => by
    have := sizeOf_Err_pos err
    omega
  | n + 1, hn => by
    simp only [IsFuel]
    rw [asErrCtx_eq_firstCtx]
    cases hf : firstCtx err with
    | none => simp only [Is_of_none _ _ hf]
    | some c =>
      simp only [Is_of_some _ _ c hf]
      have hs := asErrCtx_sizeOf err c (by rw [asErrCtx_eq_firstCtx]; exact hf)
      exact IsFuel_eq c.err t n (by omega)

theorem AsFuel_eq (err : Err) (target : Option Target) :
    ∀ n, sizeOf err ≤ n → AsFuel n err target = some (As err target)
  | 0, hn => by
    have := sizeOf_Err_pos err
    omega
  | n + 1, hn => by
    simp only [AsFuel]
    rw [asErrCtx_eq_firstCtx]
    cases hf : firstCtx err with
    | none => simp only [As_of_none _ _ hf]
    | some c =>
      simp only [As_of_some _ _ c hf]
      have hs := asErrCtx_sizeOf err c (by rw [asErrCtx_eq_firstCtx]; exact hf)
      have ih := AsFuel_eq c.err target n (by omega)
      split
      · rfl
      · exact ih

/-- C18: `Is` and `As` terminate on every error value. Each recursive call is made on
the cause of the contextual error that `errors.As` found in the chain of the current
error, which is strictly smaller than the current error; so a run of the source that
is allowed as many calls as the size of `err` returns, with the result of `Is` and of
`As`. -/
theorem C18_Is_As_terminate (err target : Err) (tgt : Option Target) :
    (∀ c, asErrCtx err = some c → sizeOf c.err < sizeOf err) ∧
      IsFuel (sizeOf err) err target = some (Is err target) ∧
      AsFuel (sizeOf err) err tgt = some (As err tgt) := by
  refine ⟨?_, IsFuel_eq err target _ (le_refl _), AsFuel_eq err tgt _ (le_refl _)⟩
  intro c hc
  have hs := errorsAsLoop_sizeOf _ _ _ (asErrCtx_eq_some err c hc)
  simp only [Err.ctx.sizeOf_spec] at hs
  omega

/-- Instance of C18 at `New("main")`: the recursive call of `Is` and `As` is on the leaf
cause, which is smaller than the contextual error. -/
theorem C18_Is_As_terminate_witness : sizeOf exMain.1.err < sizeOf exMain.1.toErr :=
  (C18_Is_As_terminate exMain.1.toErr .nil none).1 exMain.1 rfl

/-! ### The short-circuit of `As` -/

/-- C19: when the target is a pointer to the contextual-error type and the chain of `err`
contains a contextual error, `As(err, target)` returns true and the value behind the
target is exactly what it was before the call. -/
theorem C19_As_short_circuit_no_write (err old : Err) (hc : chainHasCtx err = true) :
    As err (some ⟨.errCtx, old⟩) = some (true, some ⟨.errCtx, old⟩) := by
  cases hf : firstCtx err with
  | none => rw [(firstCtx_eq_none_iff err).1 hf] at hc; cases hc
  | some c => rw [As_of_some _ _ c hf]

/-- Instance of C19 at `New("custom error")` and a pointer to the zero value. -/
theorem C19_As_short_circuit_no_write_witness :
    As exCustom.1.toErr (some ⟨.errCtx, .ctx .nil none⟩)
      = some (true, some ⟨.errCtx, .ctx .nil none⟩) :=
  C19_As_short_circuit_no_write exCustom.1.toErr (.ctx .nil none)
    (by rfl)

/-! ### No reflexivity on contextual errors -/

/-- C20: `Is` never matches a contextual-error target: for every error `err` and every
contextual error `t`, `Is(err, t)` is false; in particular `Is(t, t)` is false. -/
theorem C20_Is_ctx_target (err : Err) (t : ErrCtx) :
    Is err t.toErr = false ∧ Is t.toErr t.toErr = false := by
  constructor
  · rw [Is_eq_innermost]
    exact errorsIs_ctx_target _ _ _
  · rw [Is_eq_innermost]
    exact errorsIs_ctx_target _ _ _

end Errctx
